import Mathlib

/-!
Shallow embedding of the Sidetree core source file Rooter.ts: the Rooter
(batching and anchoring pipeline) and the DID state projection (DidCacheImpl).

Conventions of the embedding:
* Byte buffers are lists of naturals; strings are Lean strings.
* A JavaScript Map is an association list in insertion order. set updates an
  existing key in place (keeping its position) or appends a fresh key at the
  end; delete removes the entry; forEach visits entries in insertion order and
  skips entries deleted before they are visited, exactly as the ECMAScript
  specification prescribes.
* Fallible metadata fields of WriteOperation (blockNumber, transactionNumber,
  operationIndex, batchFileHash) are Option-valued, matching the optional
  fields the source checks for undefined.
* Thrown JavaScript exceptions are modelled explicitly: apply returns an
  ApplyResult that either returns a value with the updated cache state or
  records a thrown error together with the state at the throw point (mutations
  made before the throw persist on the JS object); rollback returns none when
  it would dereference undefined.
* The external hash primitives (Multihash.hash and Base58.encode) are opaque
  to the source, so the embedding is parameterised by a HashEnv providing
  them; the external CAS, ledger, batch-file codec and Merkle tree used by the
  Rooter tick are parameterised by a RooterEnv.
-/

/-- Association-list model of a JavaScript Map keyed by strings:
get returns the value of the single entry with the given key. -/
def jsLookup {α : Type} : List (String × α) → String → Option α
  | [], _ => none
  | (k, v) :: rest, key => if k = key then some v else jsLookup rest key

/-- Map.set: update an existing key in place (keeping its insertion position)
or append a new entry at the end. -/
def jsSet {α : Type} : List (String × α) → String → α → List (String × α)
  | [], key, value => [(key, value)]
  | (k, v) :: rest, key, value =>
    if k = key then (k, value) :: rest else (k, v) :: jsSet rest key value

/-- Map.delete: remove the entry with the given key, if any. -/
def jsEraseKey {α : Type} : List (String × α) → String → List (String × α)
  | [], _ => []
  | (k, v) :: rest, key => if k = key then rest else (k, v) :: jsEraseKey rest key

/-- The four Sidetree write operation kinds of Operation.ts. -/
inductive OperationType
  | Create
  | Update
  | Delete
  | Recover
deriving DecidableEq, Repr

/-- The timestamp of an operation (interface OperationTimestamp in Rooter.ts). -/
structure OperationTimestamp where
  blockNumber : Nat
  transactionNumber : Nat
  operationIndex : Nat
deriving DecidableEq, Repr

/-- The function earlier of Rooter.ts: strict lexicographic comparison on
(transactionNumber, operationIndex); blockNumber does not participate. -/
def earlier (ts1 ts2 : OperationTimestamp) : Bool :=
  decide (ts1.transactionNumber < ts2.transactionNumber) ||
    (decide (ts1.transactionNumber = ts2.transactionNumber) &&
      decide (ts1.operationIndex < ts2.operationIndex))

/-- Information about a write operation kept by the DID cache
(interface OperationInfo in Rooter.ts). -/
structure OperationInfo where
  batchFileHash : String
  type : OperationType
  timestamp : OperationTimestamp
deriving DecidableEq, Repr

/-- A resolved WriteOperation as consumed by DidCacheImpl.apply. The four
resolved-transaction metadata fields are optional, as in the source, where
apply checks each for undefined. -/
structure WriteOperation where
  blockNumber : Option Nat
  transactionNumber : Option Nat
  operationIndex : Option Nat
  batchFileHash : Option String
  type : OperationType
  encodedPayload : List Nat
  operationBuffer : List Nat
  previousOperationHash : Option String
deriving DecidableEq, Repr

/-- The external hashing primitives used by DidCacheImpl.getHash, opaque in the
source: Multihash.hash (algorithm code and content to digest bytes) and
Base58.encode. -/
structure HashEnv where
  multihash : Nat → List Nat → List Nat
  base58Encode : List Nat → String

/-- DidCacheImpl.getHash: hash the encoded create payload for Create
operations, otherwise the whole operation buffer; the multihash algorithm code
is the hard-coded constant 18 (sha256HashCode). -/
def getHash (he : HashEnv) (operation : WriteOperation) : String :=
  let sha256HashCode := 18
  let contentBuffer :=
    if operation.type = OperationType.Create then operation.encodedPayload
    else operation.operationBuffer
  he.base58Encode (he.multihash sha256HashCode contentBuffer)

/-- The condition of the truthiness test if (operation.previousOperationHash)
in apply: present and non-empty. -/
def prevOf (operation : WriteOperation) : Option String :=
  match operation.previousOperationHash with
  | none => none
  | some p => if p = "" then none else some p

/-- The OperationInfo that apply projects out of a WriteOperation, available
exactly when all four required metadata fields are present. -/
def opInfoOf (operation : WriteOperation) : Option OperationInfo :=
  match operation.blockNumber, operation.transactionNumber,
      operation.operationIndex, operation.batchFileHash with
  | some blockNumber, some transactionNumber, some operationIndex, some batchFileHash =>
    some { batchFileHash := batchFileHash, type := operation.type,
           timestamp := { blockNumber := blockNumber,
                          transactionNumber := transactionNumber,
                          operationIndex := operationIndex } }
  | _, _, _, _ => none

/-- The two projection maps of DidCacheImpl: versionId to chosen next
versionId, and operation hash to OperationInfo. -/
structure DidCacheState where
  nextVersion : List (String × String)
  opHashToInfo : List (String × OperationInfo)
deriving DecidableEq, Repr

/-- The empty cache a fresh DidCacheImpl starts from. -/
def emptyCache : DidCacheState := { nextVersion := [], opHashToInfo := [] }

/-- Errors apply can throw: the four invalid-operation errors of the metadata
checks, and the TypeError raised when applyVersionChainUpdates dereferences
timestamp on the result of an opHashToInfo lookup that returned undefined
(the source casts it with as OperationInfo). -/
inductive ApplyError
  | invalidOperation (message : String)
  | typeError
deriving DecidableEq, Repr

/-- Outcome of one apply call: a normal return (hash or undefined) with the
updated state, or a thrown error with the state at the throw point. -/
inductive ApplyResult
  | threw (e : ApplyError) (s : DidCacheState)
  | returned (result : Option String) (s : DidCacheState)
deriving DecidableEq, Repr

/-- DidCacheImpl.applyVersionChainUpdates: keep the currently chosen next
version of prevVersionId if its stored info has a strictly earlier timestamp,
otherwise point prevVersionId at the new operation. Returns none for the
TypeError raised when the currently chosen next hash has no stored info. -/
def applyVersionChainUpdates (s : DidCacheState) (opHash : String)
    (opInfo : OperationInfo) (prevVersionId : String) : Option DidCacheState :=
  match jsLookup s.nextVersion prevVersionId with
  | some curUpdateToPrevVersionId =>
    match jsLookup s.opHashToInfo curUpdateToPrevVersionId with
    | none => none
    | some curUpdateToPrevVersionIdInfo =>
      if earlier curUpdateToPrevVersionIdInfo.timestamp opInfo.timestamp then some s
      else some { s with nextVersion := jsSet s.nextVersion prevVersionId opHash }
  | none => some { s with nextVersion := jsSet s.nextVersion prevVersionId opHash }

/-- The tail of apply after the opHashToInfo update (source lines 326 to 332):
run the version chain bookkeeping when the operation names a previous version,
then return the operation hash. -/
def applyUpdateMaps (s1 : DidCacheState) (operation : WriteOperation)
    (opHash : String) (opInfo : OperationInfo) : ApplyResult :=
  match prevOf operation with
  | none => ApplyResult.returned (some opHash) s1
  | some prevVersionId =>
    match applyVersionChainUpdates s1 opHash opInfo prevVersionId with
    | none => ApplyResult.threw ApplyError.typeError s1
    | some s2 => ApplyResult.returned (some opHash) s2

/-- The body of apply after the metadata validation succeeded: duplicate
resolution against the stored info, then the map updates. -/
def applyValidated (s : DidCacheState) (operation : WriteOperation)
    (opHash : String) (opInfo : OperationInfo) : ApplyResult :=
  match jsLookup s.opHashToInfo opHash with
  | some prevOperationInfo =>
    if earlier prevOperationInfo.timestamp opInfo.timestamp then
      ApplyResult.returned none s
    else
      applyUpdateMaps { s with opHashToInfo := jsSet s.opHashToInfo opHash opInfo }
        operation opHash opInfo
  | none =>
    applyUpdateMaps { s with opHashToInfo := jsSet s.opHashToInfo opHash opInfo }
      operation opHash opInfo

/-- DidCacheImpl.apply: compute the operation hash, validate the four
resolved-transaction metadata fields in source order, then perform duplicate
resolution and the map updates. -/
def apply (he : HashEnv) (s : DidCacheState) (operation : WriteOperation) : ApplyResult :=
  let opHash := getHash he operation
  match operation.blockNumber with
  | none => ApplyResult.threw
      (ApplyError.invalidOperation "Invalid operation: blockNumber undefined") s
  | some blockNumber =>
    match operation.transactionNumber with
    | none => ApplyResult.threw
        (ApplyError.invalidOperation "Invalid operation: transactionNumber undefined") s
    | some transactionNumber =>
      match operation.operationIndex with
      | none => ApplyResult.threw
          (ApplyError.invalidOperation "Invalid operation: operationIndex undefined") s
      | some operationIndex =>
        match operation.batchFileHash with
        | none => ApplyResult.threw
            (ApplyError.invalidOperation "Invalid operation: batchFileHash undefined") s
        | some batchFileHash =>
          applyValidated s operation opHash
            { batchFileHash := batchFileHash, type := operation.type,
              timestamp := { blockNumber := blockNumber,
                             transactionNumber := transactionNumber,
                             operationIndex := operationIndex } }

/-- The state of the DidCacheImpl object after one apply call: on a throw the
mutations made before the throw point persist. -/
def applyStep (he : HashEnv) (s : DidCacheState) (operation : WriteOperation) : DidCacheState :=
  match apply he s operation with
  | ApplyResult.returned _ s1 => s1
  | ApplyResult.threw _ s1 => s1

/-- The state after a sequence of apply calls, oldest first. -/
def applyList (he : HashEnv) (s : DidCacheState) : List WriteOperation → DidCacheState
  | [] => s
  | operation :: rest => applyList he (applyStep he s operation) rest

/-- The first forEach pass of DidCacheImpl.rollback over nextVersion. The
source names the callback parameters (version, nextVersion, map), but
JavaScript Map.forEach passes (value, key, map): so at an entry key to value,
opInfo is looked up at the KEY and the delete removes the entry whose key
equals the VALUE. The recursion walks the original insertion order; an entry
deleted before being visited is skipped, as forEach does. Returns none for
the TypeError when the looked-up key has no stored OperationInfo. -/
def rollbackNextVersionPass (opHashToInfo : List (String × OperationInfo))
    (transactionNumber : Nat) :
    List (String × String) → List (String × String) → Option (List (String × String))
  | [], m => some m
  | (k, _) :: rest, m =>
    match jsLookup m k with
    | none => rollbackNextVersionPass opHashToInfo transactionNumber rest m
    | some version =>
      match jsLookup opHashToInfo k with
      | none => none
      | some opInfo =>
        if opInfo.timestamp.transactionNumber ≥ transactionNumber then
          rollbackNextVersionPass opHashToInfo transactionNumber rest (jsEraseKey m version)
        else
          rollbackNextVersionPass opHashToInfo transactionNumber rest m

/-- DidCacheImpl.rollback: the nextVersion pass above, then removal of every
opHashToInfo entry whose transactionNumber is at least the parameter (the
second forEach deletes only the entry being visited, so it is a filter that
keeps insertion order). -/
def rollback (s : DidCacheState) (transactionNumber : Nat) : Option DidCacheState :=
  match rollbackNextVersionPass s.opHashToInfo transactionNumber s.nextVersion s.nextVersion with
  | none => none
  | some nv =>
    some { nextVersion := nv,
           opHashToInfo := s.opHashToInfo.filter
             (fun e => decide (e.2.timestamp.transactionNumber < transactionNumber)) }

/-- DidCacheImpl.previous: look up the info of the version, reconstruct the
operation through the CAS (the reconstruction getOp is opaque here), and
return its previousOperationHash when truthy. -/
def previous (s : DidCacheState) (getOp : OperationInfo → WriteOperation)
    (versionId : String) : Option String :=
  match jsLookup s.opHashToInfo versionId with
  | none => none
  | some opInfo =>
    match (getOp opInfo).previousOperationHash with
    | none => none
    | some p => if p = "" then none else some p

/-- The while loop of DidCacheImpl.first, with fuel standing in for the
unbounded iteration: returns none only when the fuel runs out. -/
def firstAux (s : DidCacheState) (getOp : OperationInfo → WriteOperation) :
    Nat → String → Option String
  | 0, _ => none
  | fuel + 1, versionId =>
    match previous s getOp versionId with
    | none => some versionId
    | some prevVersionId => firstAux s getOp fuel prevVersionId

/-- DidCacheImpl.first: undefined immediately when the starting version is
unknown, otherwise walk previous until it yields undefined. -/
def first (s : DidCacheState) (getOp : OperationInfo → WriteOperation)
    (fuel : Nat) (versionId : String) : Option String :=
  match jsLookup s.opHashToInfo versionId with
  | none => none
  | some _ => firstAux s getOp fuel versionId

/-- Modelled from the spec: the protocol parameter record returned by the
Protocol Table (Protocol.ts is not under src/); required keys per the spec are
maxOperationsPerBatch and hashAlgorithmCode. -/
structure ProtocolParameters where
  maxOperationsPerBatch : Nat
  hashAlgorithmCode : Nat
deriving DecidableEq, Repr

/-- Modelled from the spec: getProtocol of Protocol.ts (not under src/) is a
lookup in a list of (startingBlock, parameters) entries returning the
parameters of the greatest startingBlock at most the block number. -/
def getProtocol (table : List (Nat × ProtocolParameters)) (blockNumber : Nat) :
    Option ProtocolParameters :=
  (table.foldl
    (fun acc e =>
      if e.1 ≤ blockNumber then
        match acc with
        | none => some e
        | some a => if a.1 ≤ e.1 then some e else some a
      else acc)
    none).map Prod.snd

/-- The collaborators of a Rooter tick. The CAS write, ledger read and ledger
write can each fail; the batch-file codec, the Merkle root and the canonical
anchor-file serialisation are opaque deterministic functions. -/
structure RooterEnv where
  table : List (Nat × ProtocolParameters)
  getLastBlockResult : Except String Nat
  casWriteResult : List Nat → Except String String
  blockchainWriteResult : String → Except String Unit
  batchFileBuffer : List (List Nat) → List Nat
  merkleRootHash : List (List Nat) → String
  anchorFileBuffer : String → String → List Nat

/-- The mutable state of a Rooter: the pending-operation queue (head at the
front) and the processing flag. -/
structure RooterState where
  operations : List (List Nat)
  processing : Bool
deriving DecidableEq, Repr

/-- Rooter.getBatch: read the latest block, pick the protocol parameters for
the next block, and shift min(queue length, maxOperationsPerBatch) operations
off the head of the queue in order. -/
def getBatch (env : RooterEnv) (s : RooterState) :
    Except String (List (List Nat) × RooterState) :=
  match env.getLastBlockResult with
  | Except.error e => Except.error e
  | Except.ok latestBlockNumber =>
    match getProtocol env.table (latestBlockNumber + 1) with
    | none => Except.error "no protocol parameters"
    | some protocol =>
      let queueSize := s.operations.length
      let batchSize :=
        if queueSize > protocol.maxOperationsPerBatch then protocol.maxOperationsPerBatch
        else queueSize
      Except.ok (s.operations.take batchSize,
        { s with operations := s.operations.drop batchSize })

/-- Rooter.rootOperations: coalesce when already processing; otherwise drain a
batch, write the batch file and the anchor file to the CAS and the anchor-file
address to the ledger. Every error raised after the drain is caught and
swallowed (the catch block only logs), and the finally block clears the
processing flag on every exit path. -/
def rootOperations (env : RooterEnv) (s : RooterState) : RooterState :=
  if s.processing then s
  else
    let s1 : RooterState := { s with processing := true }
    let s2 : RooterState :=
      match getBatch env s1 with
      | Except.error _ => s1
      | Except.ok (batch, sDrained) =>
        if batch.length = 0 then sDrained
        else
          match env.casWriteResult (env.batchFileBuffer batch) with
          | Except.error _ => sDrained
          | Except.ok batchFileHash =>
            match env.casWriteResult
                (env.anchorFileBuffer batchFileHash (env.merkleRootHash batch)) with
            | Except.error _ => sDrained
            | Except.ok anchorFileAddress =>
              match env.blockchainWriteResult anchorFileAddress with
              | Except.error _ => sDrained
              | Except.ok _ => sDrained
    { s2 with processing := false }

/-- Rooter.add: O(1) append at the tail of the queue. -/
def rooterAdd (s : RooterState) (operation : List Nat) : RooterState :=
  { s with operations := s.operations ++ [operation] }

/-- Hash consistency across a batch of operations: two operations with the
same hash carry the same previousOperationHash. The source comments on
VersionId observe that operation hashes are unique to the operation content,
which implies this. -/
def HashConsistent (he : HashEnv) (ops : List WriteOperation) : Prop :=
  ∀ a, a ∈ ops → ∀ b, b ∈ ops → getHash he a = getHash he b →
    a.previousOperationHash = b.previousOperationHash

/-- Invariant of the opHashToInfo map after applying ops from the empty cache:
every stored info was projected from some applied operation with that hash,
and is earliest among all applied operations with that hash; and every valid
applied operation left some entry at its hash. -/
structure OpInv (he : HashEnv) (ops : List WriteOperation) (s : DidCacheState) : Prop where
  opSound : ∀ h info, jsLookup s.opHashToInfo h = some info →
    ∃ op, op ∈ ops ∧ opInfoOf op = some info ∧ getHash he op = h
  opMin : ∀ h info, jsLookup s.opHashToInfo h = some info →
    ∀ op, op ∈ ops → ∀ i, opInfoOf op = some i → getHash he op = h →
      earlier i.timestamp info.timestamp = false
  opComplete : ∀ op, op ∈ ops → ∀ i, opInfoOf op = some i →
    (jsLookup s.opHashToInfo (getHash he op)).isSome = true

/-- Full invariant of both projection maps after applying ops from the empty
cache: in addition to OpInv, every chosen next version is a known hash stored
by an applied operation that names the entry key as its previous version, the
chosen one has the earliest timestamp among all applied operations naming that
previous version, and every applied operation naming a previous version left
an entry for it. -/
structure CacheInv (he : HashEnv) (ops : List WriteOperation) (s : DidCacheState) : Prop where
  toOpInv : OpInv he ops s
  nvKnown : ∀ p v, jsLookup s.nextVersion p = some v →
    (jsLookup s.opHashToInfo v).isSome = true
  nvSound : ∀ p v, jsLookup s.nextVersion p = some v →
    ∃ op, op ∈ ops ∧ (opInfoOf op).isSome = true ∧ getHash he op = v ∧ prevOf op = some p
  nvComplete : ∀ op, op ∈ ops → ∀ i, opInfoOf op = some i → ∀ p, prevOf op = some p →
    (jsLookup s.nextVersion p).isSome = true
  nvMin : ∀ p v infoV, jsLookup s.nextVersion p = some v →
    jsLookup s.opHashToInfo v = some infoV →
    ∀ op, op ∈ ops → ∀ i, opInfoOf op = some i → prevOf op = some p →
      earlier i.timestamp infoV.timestamp = false

/-- True exactly when the apply outcome is a thrown invalid-operation error. -/
def thrownInvalidOperation : ApplyResult → Bool
  | ApplyResult.threw (ApplyError.invalidOperation _) _ => true
  | _ => false

/-- The cache state carried by an apply outcome (the state of the JS object
after the call, whether it returned or threw). -/
def resultState : ApplyResult → DidCacheState
  | ApplyResult.threw _ s => s
  | ApplyResult.returned _ s => s

/-- One step of the predecessor walk used by first. -/
def prevStep (s : DidCacheState) (getOp : OperationInfo → WriteOperation)
    (a b : String) : Prop :=
  previous s getOp a = some b

/-! ### Concrete test fixtures used by witnesses and counterexamples -/

/-- A concrete hash environment for the fixtures: the multihash is the content
itself and the encoding prints the bytes, so single-byte buffers hash to their
decimal digit. -/
def cHashEnv : HashEnv :=
  { multihash := fun _ buffer => buffer,
    base58Encode := fun buffer => String.join (buffer.map toString) }

def c1opA : WriteOperation :=
  { blockNumber := some 5, transactionNumber := some 5, operationIndex := some 0,
    batchFileHash := some "fileA", type := OperationType.Update,
    encodedPayload := [], operationBuffer := [2], previousOperationHash := none }

def c1opB : WriteOperation :=
  { blockNumber := some 7, transactionNumber := some 7, operationIndex := some 0,
    batchFileHash := some "fileB", type := OperationType.Update,
    encodedPayload := [], operationBuffer := [2], previousOperationHash := none }

def c1ops : List WriteOperation := [c1opA, c1opB]

def c1info : OperationInfo :=
  { batchFileHash := "fileA", type := OperationType.Update,
    timestamp := { blockNumber := 5, transactionNumber := 5, operationIndex := 0 } }

def c2opC : WriteOperation :=
  { blockNumber := some 1, transactionNumber := some 1, operationIndex := some 0,
    batchFileHash := some "f1", type := OperationType.Create,
    encodedPayload := [1], operationBuffer := [1], previousOperationHash := none }

def c2opU1 : WriteOperation :=
  { blockNumber := some 10, transactionNumber := some 10, operationIndex := some 0,
    batchFileHash := some "f2", type := OperationType.Update,
    encodedPayload := [], operationBuffer := [2], previousOperationHash := some "1" }

def c2opU2 : WriteOperation :=
  { blockNumber := some 10, transactionNumber := some 10, operationIndex := some 1,
    batchFileHash := some "f3", type := OperationType.Update,
    encodedPayload := [], operationBuffer := [3], previousOperationHash := some "1" }

def c2ops : List WriteOperation := [c2opC, c2opU1, c2opU2]

def c3opC : WriteOperation :=
  { blockNumber := some 1, transactionNumber := some 1, operationIndex := some 0,
    batchFileHash := some "fileA", type := OperationType.Create,
    encodedPayload := [1], operationBuffer := [1], previousOperationHash := none }

def c3opU : WriteOperation :=
  { blockNumber := some 2, transactionNumber := some 12, operationIndex := some 0,
    batchFileHash := some "fileB", type := OperationType.Update,
    encodedPayload := [], operationBuffer := [2], previousOperationHash := some "1" }

def c3pre : DidCacheState := applyList cHashEnv emptyCache [c3opC, c3opU]

def c3post : DidCacheState := (rollback c3pre 11).getD emptyCache

def c4opK : WriteOperation :=
  { blockNumber := some 3, transactionNumber := some 3, operationIndex := some 0,
    batchFileHash := some "f", type := OperationType.Update,
    encodedPayload := [], operationBuffer := [4], previousOperationHash := some "3" }

def c4opX : WriteOperation :=
  { blockNumber := some 5, transactionNumber := some 5, operationIndex := some 0,
    batchFileHash := some "f", type := OperationType.Update,
    encodedPayload := [], operationBuffer := [5], previousOperationHash := some "4" }

def c4opP : WriteOperation :=
  { blockNumber := some 10, transactionNumber := some 10, operationIndex := some 0,
    batchFileHash := some "f", type := OperationType.Create,
    encodedPayload := [3], operationBuffer := [3], previousOperationHash := none }

def c4opY : WriteOperation :=
  { blockNumber := some 12, transactionNumber := some 12, operationIndex := some 0,
    batchFileHash := some "f", type := OperationType.Update,
    encodedPayload := [], operationBuffer := [6], previousOperationHash := some "4" }

def c4ops : List WriteOperation := [c4opK, c4opX, c4opP, c4opY]

def c4pre : DidCacheState := applyList cHashEnv emptyCache c4ops

def c4post : DidCacheState := (rollback c4pre 10).getD emptyCache

/-- The operations of c4ops pruned by rollback 10 (transactionNumber at least
10), in their original order. -/
def c4pruned : List WriteOperation := [c4opP, c4opY]

def c4replayed : DidCacheState := applyList cHashEnv c4post c4pruned

def c5params : ProtocolParameters :=
  { maxOperationsPerBatch := 2, hashAlgorithmCode := 18 }

def c5env : RooterEnv :=
  { table := [(0, c5params)],
    getLastBlockResult := Except.ok 0,
    casWriteResult := fun _ => Except.ok "casAddress",
    blockchainWriteResult := fun _ => Except.ok (),
    batchFileBuffer := fun _ => [],
    merkleRootHash := fun _ => "root",
    anchorFileBuffer := fun _ _ => [] }

def c5queue : RooterState := { operations := [[1], [2], [3]], processing := false }

/-- A tick environment whose ledger write fails after both CAS writes
succeeded. -/
def c6env : RooterEnv :=
  { table := [(0, c5params)],
    getLastBlockResult := Except.ok 0,
    casWriteResult := fun _ => Except.ok "casAddress",
    blockchainWriteResult := fun _ => Except.error "ledger down",
    batchFileBuffer := fun _ => [],
    merkleRootHash := fun _ => "root",
    anchorFileBuffer := fun _ _ => [] }

def c7badOp : WriteOperation :=
  { blockNumber := none, transactionNumber := some 1, operationIndex := some 0,
    batchFileHash := some "f", type := OperationType.Update,
    encodedPayload := [], operationBuffer := [9], previousOperationHash := none }

def c8table : List (Nat × ProtocolParameters) :=
  [(0, { maxOperationsPerBatch := 100, hashAlgorithmCode := 18 }),
   (500000, { maxOperationsPerBatch := 100, hashAlgorithmCode := 19 })]

def c9info : OperationInfo :=
  { batchFileHash := "fileB", type := OperationType.Update,
    timestamp := { blockNumber := 2, transactionNumber := 2, operationIndex := 0 } }

def c9state : DidCacheState :=
  { nextVersion := [], opHashToInfo := [("2", c9info)] }

/-- The operation reconstructed from the CAS for the single stored info: an
update whose previous version hash "1" was never applied. -/
def c9op : WriteOperation :=
  { blockNumber := some 2, transactionNumber := some 2, operationIndex := some 0,
    batchFileHash := some "fileB", type := OperationType.Update,
    encodedPayload := [], operationBuffer := [2], previousOperationHash := some "1" }

def c9getOp : OperationInfo → WriteOperation := fun _ => c9op

def c10op : WriteOperation :=
  { blockNumber := some 1, transactionNumber := some 5, operationIndex := some 0,
    batchFileHash := some "fileNew", type := OperationType.Update,
    encodedPayload := [], operationBuffer := [7], previousOperationHash := none }

/-- Stored info with the same hash and the same timestamp as c10op but a
different batchFileHash. -/
def c10stored : OperationInfo :=
  { batchFileHash := "fileOld", type := OperationType.Update,
    timestamp := { blockNumber := 1, transactionNumber := 5, operationIndex := 0 } }

def c10s0 : DidCacheState :=
  { nextVersion := [], opHashToInfo := [("7", c10stored)] }

def c10s1 : DidCacheState := applyStep cHashEnv c10s0 c10op

/-! ### Basic lemmas about the JavaScript map model and the timestamp order -/

theorem jsLookup_jsSet {α : Type} (m : List (String × α)) (k : String) (v : α)
    (k' : String) :
    jsLookup (jsSet m k v) k' = if k = k' then some v else jsLookup m k' := by
  induction m with
  | nil =>
    by_cases h : k = k' <;> simp [jsSet, jsLookup, h]
  | cons e rest ih =>
    obtain ⟨ek, ev⟩ := e
    by_cases hek : ek = k
    · subst hek
      by_cases h : ek = k' <;> simp [jsSet, jsLookup, h]
    · by_cases h : ek = k'
      · subst h
        simp [jsSet, jsLookup, hek, Ne.symm hek]
      · simp [jsSet, jsLookup, hek, h, ih]

theorem jsSet_eq_of_lookup {α : Type} (m : List (String × α)) (k : String) (v : α)
    (h : jsLookup m k = some v) : jsSet m k v = m := by
  induction m with
  | nil => simp [jsLookup] at h
  | cons e rest ih =>
    obtain ⟨ek, ev⟩ := e
    by_cases hek : ek = k
    · subst hek
      simp [jsLookup] at h
      simp [jsSet, h]
    · simp [jsLookup, hek] at h
      simp [jsSet, hek, ih h]

theorem earlier_eq_true_iff (a b : OperationTimestamp) :
    earlier a b = true ↔
      a.transactionNumber < b.transactionNumber ∨
        (a.transactionNumber = b.transactionNumber ∧
          a.operationIndex < b.operationIndex) := by
  simp [earlier]

theorem earlier_eq_false_iff (a b : OperationTimestamp) :
    earlier a b = false ↔
      ¬ (a.transactionNumber < b.transactionNumber ∨
        (a.transactionNumber = b.transactionNumber ∧
          a.operationIndex < b.operationIndex)) := by
  rw [← earlier_eq_true_iff]
  cases earlier a b <;> simp

theorem earlier_irrefl (a : OperationTimestamp) : earlier a a = false := by
  rw [earlier_eq_false_iff]
  omega

theorem earlier_asymm (a b : OperationTimestamp) (h : earlier a b = true) :
    earlier b a = false := by
  rw [earlier_eq_true_iff] at h
  rw [earlier_eq_false_iff]
  omega

theorem earlier_false_trans (x y z : OperationTimestamp)
    (h1 : earlier x y = false) (h2 : earlier z x = false) :
    earlier z y = false := by
  rw [earlier_eq_false_iff] at h1 h2 ⊢
  omega

theorem earlier_false_of_false_of_true (x y z : OperationTimestamp)
    (h1 : earlier x y = false) (h2 : earlier x z = true) :
    earlier z y = false := by
  rw [earlier_eq_false_iff] at h1 ⊢
  rw [earlier_eq_true_iff] at h2
  omega

/-! ### Case characterisations of apply -/

theorem opInfoOf_some_elim (operation : WriteOperation) (info : OperationInfo)
    (h : opInfoOf operation = some info) :
    operation.blockNumber = some info.timestamp.blockNumber ∧
      operation.transactionNumber = some info.timestamp.transactionNumber ∧
      operation.operationIndex = some info.timestamp.operationIndex ∧
      operation.batchFileHash = some info.batchFileHash ∧
      operation.type = info.type := by
  cases hb : operation.blockNumber with
  | none => simp [opInfoOf, hb] at h
  | some b =>
    cases ht : operation.transactionNumber with
    | none => simp [opInfoOf, hb, ht] at h
    | some t =>
      cases hi : operation.operationIndex with
      | none => simp [opInfoOf, hb, ht, hi] at h
      | some i =>
        cases hf : operation.batchFileHash with
        | none => simp [opInfoOf, hb, ht, hi, hf] at h
        | some f =>
          simp [opInfoOf, hb, ht, hi, hf] at h
          subst h
          simp

theorem apply_of_opInfoOf_none (he : HashEnv) (s : DidCacheState)
    (operation : WriteOperation) (h : opInfoOf operation = none) :
    ∃ msg, apply he s operation = ApplyResult.threw (ApplyError.invalidOperation msg) s := by
  cases hb : operation.blockNumber with
  | none =>
    exact ⟨"Invalid operation: blockNumber undefined", by simp [apply, hb]⟩
  | some b =>
    cases ht : operation.transactionNumber with
    | none =>
      exact ⟨"Invalid operation: transactionNumber undefined", by simp [apply, hb, ht]⟩
    | some t =>
      cases hi : operation.operationIndex with
      | none =>
        exact ⟨"Invalid operation: operationIndex undefined", by simp [apply, hb, ht, hi]⟩
      | some i =>
        cases hf : operation.batchFileHash with
        | none =>
          exact ⟨"Invalid operation: batchFileHash undefined", by simp [apply, hb, ht, hi, hf]⟩
        | some f => simp [opInfoOf, hb, ht, hi, hf] at h

theorem apply_of_opInfoOf_some (he : HashEnv) (s : DidCacheState)
    (operation : WriteOperation) (info : OperationInfo)
    (h : opInfoOf operation = some info) :
    apply he s operation = applyValidated s operation (getHash he operation) info := by
  obtain ⟨hb, ht, hi, hf, hty⟩ := opInfoOf_some_elim operation info h
  simp only [apply, hb, ht, hi, hf]
  congr 1
  cases info with
  | mk bfh ty ts =>
    cases ts
    simp at hty ⊢
    exact hty

theorem applyValidated_of_not_dup (s : DidCacheState) (operation : WriteOperation)
    (opHash : String) (info : OperationInfo)
    (hnd : ∀ prev, jsLookup s.opHashToInfo opHash = some prev →
      earlier prev.timestamp info.timestamp = false) :
    applyValidated s operation opHash info =
      applyUpdateMaps { s with opHashToInfo := jsSet s.opHashToInfo opHash info }
        operation opHash info := by
  cases hl : jsLookup s.opHashToInfo opHash with
  | none => simp [applyValidated, hl]
  | some prev => simp [applyValidated, hl, hnd prev hl]

theorem apply_dup (he : HashEnv) (s : DidCacheState) (operation : WriteOperation)
    (info : OperationInfo) (prev : OperationInfo)
    (hinfo : opInfoOf operation = some info)
    (hl : jsLookup s.opHashToInfo (getHash he operation) = some prev)
    (hearl : earlier prev.timestamp info.timestamp = true) :
    apply he s operation = ApplyResult.returned none s := by
  rw [apply_of_opInfoOf_some he s operation info hinfo]
  simp [applyValidated, hl, hearl]

theorem apply_noprev (he : HashEnv) (s : DidCacheState) (operation : WriteOperation)
    (info : OperationInfo)
    (hinfo : opInfoOf operation = some info)
    (hnd : ∀ prev, jsLookup s.opHashToInfo (getHash he operation) = some prev →
      earlier prev.timestamp info.timestamp = false)
    (hp : prevOf operation = none) :
    apply he s operation = ApplyResult.returned (some (getHash he operation))
      { s with opHashToInfo := jsSet s.opHashToInfo (getHash he operation) info } := by
  rw [apply_of_opInfoOf_some he s operation info hinfo,
    applyValidated_of_not_dup s operation _ info hnd]
  simp [applyUpdateMaps, hp]

theorem apply_prev_new (he : HashEnv) (s : DidCacheState) (operation : WriteOperation)
    (info : OperationInfo) (p : String)
    (hinfo : opInfoOf operation = some info)
    (hnd : ∀ prev, jsLookup s.opHashToInfo (getHash he operation) = some prev →
      earlier prev.timestamp info.timestamp = false)
    (hp : prevOf operation = some p)
    (hnv : jsLookup s.nextVersion p = none) :
    apply he s operation = ApplyResult.returned (some (getHash he operation))
      { nextVersion := jsSet s.nextVersion p (getHash he operation),
        opHashToInfo := jsSet s.opHashToInfo (getHash he operation) info } := by
  rw [apply_of_opInfoOf_some he s operation info hinfo,
    applyValidated_of_not_dup s operation _ info hnd]
  simp [applyUpdateMaps, hp, applyVersionChainUpdates, hnv]

theorem apply_prev_keep (he : HashEnv) (s : DidCacheState) (operation : WriteOperation)
    (info : OperationInfo) (p : String) (c : String) (ci : OperationInfo)
    (hinfo : opInfoOf operation = some info)
    (hnd : ∀ prev, jsLookup s.opHashToInfo (getHash he operation) = some prev →
      earlier prev.timestamp info.timestamp = false)
    (hp : prevOf operation = some p)
    (hnv : jsLookup s.nextVersion p = some c)
    (hc : jsLookup (jsSet s.opHashToInfo (getHash he operation) info) c = some ci)
    (hearl : earlier ci.timestamp info.timestamp = true) :
    apply he s operation = ApplyResult.returned (some (getHash he operation))
      { s with opHashToInfo := jsSet s.opHashToInfo (getHash he operation) info } := by
  rw [apply_of_opInfoOf_some he s operation info hinfo,
    applyValidated_of_not_dup s operation _ info hnd]
  simp [applyUpdateMaps, hp, applyVersionChainUpdates, hnv, hc, hearl]

theorem apply_prev_set (he : HashEnv) (s : DidCacheState) (operation : WriteOperation)
    (info : OperationInfo) (p : String) (c : String) (ci : OperationInfo)
    (hinfo : opInfoOf operation = some info)
    (hnd : ∀ prev, jsLookup s.opHashToInfo (getHash he operation) = some prev →
      earlier prev.timestamp info.timestamp = false)
    (hp : prevOf operation = some p)
    (hnv : jsLookup s.nextVersion p = some c)
    (hc : jsLookup (jsSet s.opHashToInfo (getHash he operation) info) c = some ci)
    (hearl : earlier ci.timestamp info.timestamp = false) :
    apply he s operation = ApplyResult.returned (some (getHash he operation))
      { nextVersion := jsSet s.nextVersion p (getHash he operation),
        opHashToInfo := jsSet s.opHashToInfo (getHash he operation) info } := by
  rw [apply_of_opInfoOf_some he s operation info hinfo,
    applyValidated_of_not_dup s operation _ info hnd]
  simp [applyUpdateMaps, hp, applyVersionChainUpdates, hnv, hc, hearl]

theorem apply_prev_crash (he : HashEnv) (s : DidCacheState) (operation : WriteOperation)
    (info : OperationInfo) (p : String) (c : String)
    (hinfo : opInfoOf operation = some info)
    (hnd : ∀ prev, jsLookup s.opHashToInfo (getHash he operation) = some prev →
      earlier prev.timestamp info.timestamp = false)
    (hp : prevOf operation = some p)
    (hnv : jsLookup s.nextVersion p = some c)
    (hc : jsLookup (jsSet s.opHashToInfo (getHash he operation) info) c = none) :
    apply he s operation = ApplyResult.threw ApplyError.typeError
      { s with opHashToInfo := jsSet s.opHashToInfo (getHash he operation) info } := by
  rw [apply_of_opInfoOf_some he s operation info hinfo,
    applyValidated_of_not_dup s operation _ info hnd]
  simp [applyUpdateMaps, hp, applyVersionChainUpdates, hnv, hc]

/-! ### Invariants of the projection maps under sequences of apply calls -/

theorem applyStep_of_none (he : HashEnv) (s : DidCacheState) (operation : WriteOperation)
    (h : opInfoOf operation = none) : applyStep he s operation = s := by
  obtain ⟨msg, hm⟩ := apply_of_opInfoOf_none he s operation h
  simp [applyStep, hm]

theorem applyStep_of_dup (he : HashEnv) (s : DidCacheState) (operation : WriteOperation)
    (info : OperationInfo) (prev : OperationInfo)
    (hinfo : opInfoOf operation = some info)
    (hl : jsLookup s.opHashToInfo (getHash he operation) = some prev)
    (hearl : earlier prev.timestamp info.timestamp = true) :
    applyStep he s operation = s := by
  simp [applyStep, apply_dup he s operation info prev hinfo hl hearl]

theorem applyStep_opMap_of_not_dup (he : HashEnv) (s : DidCacheState)
    (operation : WriteOperation) (info : OperationInfo)
    (hinfo : opInfoOf operation = some info)
    (hnd : ∀ prev, jsLookup s.opHashToInfo (getHash he operation) = some prev →
      earlier prev.timestamp info.timestamp = false) :
    (applyStep he s operation).opHashToInfo =
      jsSet s.opHashToInfo (getHash he operation) info := by
  cases hp : prevOf operation with
  | none => simp [applyStep, apply_noprev he s operation info hinfo hnd hp]
  | some p =>
    cases hnv : jsLookup s.nextVersion p with
    | none => simp [applyStep, apply_prev_new he s operation info p hinfo hnd hp hnv]
    | some c =>
      cases hc : jsLookup (jsSet s.opHashToInfo (getHash he operation) info) c with
      | none =>
        simp [applyStep, apply_prev_crash he s operation info p c hinfo hnd hp hnv hc]
      | some ci =>
        cases hearl : earlier ci.timestamp info.timestamp with
        | true =>
          simp [applyStep,
            apply_prev_keep he s operation info p c ci hinfo hnd hp hnv hc hearl]
        | false =>
          simp [applyStep,
            apply_prev_set he s operation info p c ci hinfo hnd hp hnv hc hearl]



theorem opInv_empty (he : HashEnv) : OpInv he [] emptyCache := by
  constructor
  · intro h info hl
    simp [emptyCache, jsLookup] at hl
  · intro h info hl
    simp [emptyCache, jsLookup] at hl
  · intro op hmem
    simp at hmem

theorem opInv_step (he : HashEnv) (ops : List WriteOperation) (s : DidCacheState)
    (op : WriteOperation) (inv : OpInv he ops s) :
    OpInv he (ops ++ [op]) (applyStep he s op) := by
  cases hio : opInfoOf op with
  | none =>
    rw [applyStep_of_none he s op hio]
    constructor
    · intro h info hl
      obtain ⟨w, hw, hwi, hwh⟩ := inv.opSound h info hl
      exact ⟨w, List.mem_append_left _ hw, hwi, hwh⟩
    · intro h info hl op' hmem i hi hh
      rcases List.mem_append.mp hmem with hmem | hmem
      · exact inv.opMin h info hl op' hmem i hi hh
      · rw [List.mem_singleton.mp hmem] at hi
        rw [hio] at hi
        cases hi
    · intro op' hmem i hi
      rcases List.mem_append.mp hmem with hmem | hmem
      · exact inv.opComplete op' hmem i hi
      · rw [List.mem_singleton.mp hmem] at hi
        rw [hio] at hi
        cases hi
  | some info =>
    by_cases hdup : ∃ prev, jsLookup s.opHashToInfo (getHash he op) = some prev ∧
        earlier prev.timestamp info.timestamp = true
    · obtain ⟨prev, hl, hearl⟩ := hdup
      rw [applyStep_of_dup he s op info prev hio hl hearl]
      constructor
      · intro h' info' hl'
        obtain ⟨w, hw, hwi, hwh⟩ := inv.opSound h' info' hl'
        exact ⟨w, List.mem_append_left _ hw, hwi, hwh⟩
      · intro h' info' hl' op' hmem i hi hh
        rcases List.mem_append.mp hmem with hmem | hmem
        · exact inv.opMin h' info' hl' op' hmem i hi hh
        · rw [List.mem_singleton.mp hmem] at hi hh
          rw [hio] at hi
          cases hi
          rw [hh] at hl
          rw [hl'] at hl
          cases hl
          exact earlier_asymm _ _ hearl
      · intro op' hmem i hi
        rcases List.mem_append.mp hmem with hmem | hmem
        · exact inv.opComplete op' hmem i hi
        · rw [List.mem_singleton.mp hmem, hl]
          simp
    · have hnd : ∀ prev, jsLookup s.opHashToInfo (getHash he op) = some prev →
          earlier prev.timestamp info.timestamp = false := by
        intro prev hl
        by_contra hne
        exact hdup ⟨prev, hl, by revert hne; cases earlier prev.timestamp info.timestamp <;> simp⟩
      have hmap := applyStep_opMap_of_not_dup he s op info hio hnd
      constructor
      · intro h' info' hl'
        rw [hmap, jsLookup_jsSet] at hl'
        by_cases hh : getHash he op = h'
        · rw [if_pos hh] at hl'
          cases hl'
          exact ⟨op, List.mem_append_right _ (List.mem_singleton.mpr rfl), hio, hh⟩
        · rw [if_neg hh] at hl'
          obtain ⟨w, hw, hwi, hwh⟩ := inv.opSound h' info' hl'
          exact ⟨w, List.mem_append_left _ hw, hwi, hwh⟩
      · intro h' info' hl' op' hmem i hi hh
        rw [hmap, jsLookup_jsSet] at hl'
        by_cases hhv : getHash he op = h'
        · rw [if_pos hhv] at hl'
          cases hl'
          rcases List.mem_append.mp hmem with hmem | hmem
          · cases hlold : jsLookup s.opHashToInfo h' with
            | none =>
              have := inv.opComplete op' hmem i hi
              rw [hh, hlold] at this
              simp at this
            | some prev0 =>
              have h1 : earlier prev0.timestamp info.timestamp = false := by
                apply hnd
                rw [hhv]
                exact hlold
              have h2 : earlier i.timestamp prev0.timestamp = false :=
                inv.opMin h' prev0 hlold op' hmem i hi hh
              exact earlier_false_trans prev0.timestamp info.timestamp i.timestamp h1 h2
          · rw [List.mem_singleton.mp hmem] at hi
            rw [hio] at hi
            cases hi
            exact earlier_irrefl _
        · rw [if_neg hhv] at hl'
          rcases List.mem_append.mp hmem with hmem | hmem
          · exact inv.opMin h' info' hl' op' hmem i hi hh
          · rw [List.mem_singleton.mp hmem] at hh
            exact absurd hh hhv
      · intro op' hmem i hi
        rw [hmap, jsLookup_jsSet]
        rcases List.mem_append.mp hmem with hmem | hmem
        · by_cases hh : getHash he op = getHash he op'
          · rw [if_pos hh]
            simp
          · rw [if_neg hh]
            exact inv.opComplete op' hmem i hi
        · rw [List.mem_singleton.mp hmem]
          simp

theorem opInv_applyList (he : HashEnv) (rest : List WriteOperation) :
    ∀ (pre : List WriteOperation) (s : DidCacheState), OpInv he pre s →
      OpInv he (pre ++ rest) (applyList he s rest) := by
  induction rest with
  | nil =>
    intro pre s inv
    simpa [applyList] using inv
  | cons op rest ih =>
    intro pre s inv
    have h1 := opInv_step he pre s op inv
    have h2 := ih (pre ++ [op]) (applyStep he s op) h1
    simpa [applyList, List.append_assoc] using h2

theorem prevOf_some_elim (op : WriteOperation) (p : String) (h : prevOf op = some p) :
    op.previousOperationHash = some p ∧ ¬ p = "" := by
  cases hpp : op.previousOperationHash with
  | none => simp [prevOf, hpp] at h
  | some q =>
    by_cases hq : q = ""
    · simp [prevOf, hpp, hq] at h
    · simp [prevOf, hpp, hq] at h
      subst h
      exact ⟨rfl, hq⟩

theorem prevOf_some_intro (op : WriteOperation) (p : String)
    (h1 : op.previousOperationHash = some p) (h2 : ¬ p = "") : prevOf op = some p := by
  simp [prevOf, h1, h2]

theorem isSome_jsLookup_jsSet {α : Type} (m : List (String × α)) (k : String) (v : α)
    (k' : String) (h : (jsLookup m k').isSome = true) :
    (jsLookup (jsSet m k v) k').isSome = true := by
  rw [jsLookup_jsSet]
  by_cases hk : k = k' <;> simp [hk, h]


theorem cacheInv_empty (he : HashEnv) : CacheInv he [] emptyCache := by
  refine ⟨opInv_empty he, ?_, ?_, ?_, ?_⟩
  · intro p v hl
    simp [emptyCache, jsLookup] at hl
  · intro p v hl
    simp [emptyCache, jsLookup] at hl
  · intro op hmem
    simp at hmem
  · intro p v infoV hl
    simp [emptyCache, jsLookup] at hl

theorem nvMin_after_opSet (he : HashEnv) (ops : List WriteOperation) (s : DidCacheState)
    (op : WriteOperation) (info : OperationInfo)
    (inv : CacheInv he ops s) (hio : opInfoOf op = some info)
    (hnd : ∀ prev, jsLookup s.opHashToInfo (getHash he op) = some prev →
      earlier prev.timestamp info.timestamp = false) :
    ∀ p v infoV, jsLookup s.nextVersion p = some v →
      jsLookup (jsSet s.opHashToInfo (getHash he op) info) v = some infoV →
      ∀ op', op' ∈ ops → ∀ i, opInfoOf op' = some i → prevOf op' = some p →
        earlier i.timestamp infoV.timestamp = false := by
  intro p v infoV hnv hlv op' hmem i hi hp
  rw [jsLookup_jsSet] at hlv
  by_cases hh : getHash he op = v
  · rw [if_pos hh] at hlv
    cases hlv
    have hks := inv.nvKnown p v hnv
    cases hlold : jsLookup s.opHashToInfo v with
    | none =>
      rw [hlold] at hks
      simp at hks
    | some prev0 =>
      have h1 : earlier prev0.timestamp info.timestamp = false := by
        apply hnd
        rw [hh]
        exact hlold
      have h2 : earlier i.timestamp prev0.timestamp = false :=
        inv.nvMin p v prev0 hnv hlold op' hmem i hi hp
      exact earlier_false_trans _ _ _ h1 h2
  · rw [if_neg hh] at hlv
    exact inv.nvMin p v infoV hnv hlv op' hmem i hi hp

theorem cacheInv_step_rejected (he : HashEnv) (ops : List WriteOperation)
    (s : DidCacheState) (op : WriteOperation) (info : OperationInfo) (prev : OperationInfo)
    (hc : HashConsistent he (ops ++ [op]))
    (inv : CacheInv he ops s) (hio : opInfoOf op = some info)
    (hl : jsLookup s.opHashToInfo (getHash he op) = some prev)
    (hearl : earlier prev.timestamp info.timestamp = true) :
    CacheInv he (ops ++ [op]) (applyStep he s op) := by
  have hmemop : op ∈ ops ++ [op] := List.mem_append_right _ (List.mem_singleton.mpr rfl)
  have hopinv := opInv_step he ops s op inv.toOpInv
  have hst := applyStep_of_dup he s op info prev hio hl hearl
  rw [hst] at hopinv ⊢
  obtain ⟨w, hw, hwi, hwh⟩ := inv.toOpInv.opSound (getHash he op) prev hl
  have hsame : w.previousOperationHash = op.previousOperationHash :=
    hc w (List.mem_append_left _ hw) op hmemop hwh
  refine ⟨hopinv, inv.nvKnown, ?_, ?_, ?_⟩
  · intro p v hnv
    obtain ⟨u, hu, huv, huh, hup⟩ := inv.nvSound p v hnv
    exact ⟨u, List.mem_append_left _ hu, huv, huh, hup⟩
  · intro op' hmem i hi p hp
    rcases List.mem_append.mp hmem with hmem | hmem
    · exact inv.nvComplete op' hmem i hi p hp
    · rw [List.mem_singleton.mp hmem] at hp
      obtain ⟨hpo, hpne⟩ := prevOf_some_elim op p hp
      have hwp : prevOf w = some p := prevOf_some_intro w p (by rw [hsame, hpo]) hpne
      exact inv.nvComplete w hw prev hwi p hwp
  · intro p v infoV hnv hlv op' hmem i hi hp
    rcases List.mem_append.mp hmem with hmem | hmem
    · exact inv.nvMin p v infoV hnv hlv op' hmem i hi hp
    · rw [List.mem_singleton.mp hmem] at hp hi
      rw [hio] at hi
      cases hi
      obtain ⟨hpo, hpne⟩ := prevOf_some_elim op p hp
      have hwp : prevOf w = some p := prevOf_some_intro w p (by rw [hsame, hpo]) hpne
      have h1 : earlier prev.timestamp infoV.timestamp = false :=
        inv.nvMin p v infoV hnv hlv w hw prev hwi hwp
      exact earlier_false_of_false_of_true _ _ _ h1 hearl

theorem cacheInv_step_accepted (he : HashEnv) (ops : List WriteOperation)
    (s : DidCacheState) (op : WriteOperation) (info : OperationInfo)
    (inv : CacheInv he ops s) (hio : opInfoOf op = some info)
    (hnd : ∀ prev, jsLookup s.opHashToInfo (getHash he op) = some prev →
      earlier prev.timestamp info.timestamp = false) :
    CacheInv he (ops ++ [op]) (applyStep he s op) := by
  have hmemop : op ∈ ops ++ [op] := List.mem_append_right _ (List.mem_singleton.mpr rfl)
  have hopinv := opInv_step he ops s op inv.toOpInv
  have hstOp := applyStep_opMap_of_not_dup he s op info hio hnd
  cases hp : prevOf op with
  | none =>
    have hstNv : (applyStep he s op).nextVersion = s.nextVersion := by
      simp [applyStep, apply_noprev he s op info hio hnd hp]
    refine ⟨hopinv, ?_, ?_, ?_, ?_⟩
    · intro p v hnv
      rw [hstNv] at hnv
      rw [hstOp]
      exact isSome_jsLookup_jsSet _ _ _ _ (inv.nvKnown p v hnv)
    · intro p v hnv
      rw [hstNv] at hnv
      obtain ⟨u, hu, huv, huh, hup⟩ := inv.nvSound p v hnv
      exact ⟨u, List.mem_append_left _ hu, huv, huh, hup⟩
    · intro op' hmem i hi p' hp'
      rw [hstNv]
      rcases List.mem_append.mp hmem with hmem | hmem
      · exact inv.nvComplete op' hmem i hi p' hp'
      · rw [List.mem_singleton.mp hmem] at hp'
        rw [hp] at hp'
        cases hp'
    · intro p v infoV hnv hlv op' hmem i hi hp'
      rw [hstNv] at hnv
      rw [hstOp] at hlv
      rcases List.mem_append.mp hmem with hmem | hmem
      · exact nvMin_after_opSet he ops s op info inv hio hnd p v infoV hnv hlv op' hmem i hi hp'
      · rw [List.mem_singleton.mp hmem] at hp'
        rw [hp] at hp'
        cases hp'
  | some p0 =>
    cases hnv0 : jsLookup s.nextVersion p0 with
    | none =>
      have hstNv : (applyStep he s op).nextVersion =
          jsSet s.nextVersion p0 (getHash he op) := by
        simp [applyStep, apply_prev_new he s op info p0 hio hnd hp hnv0]
      refine ⟨hopinv, ?_, ?_, ?_, ?_⟩
      · intro p v hnv
        rw [hstNv, jsLookup_jsSet] at hnv
        rw [hstOp]
        by_cases hpp : p0 = p
        · rw [if_pos hpp] at hnv
          cases hnv
          rw [jsLookup_jsSet, if_pos rfl]
          simp
        · rw [if_neg hpp] at hnv
          exact isSome_jsLookup_jsSet _ _ _ _ (inv.nvKnown p v hnv)
      · intro p v hnv
        rw [hstNv, jsLookup_jsSet] at hnv
        by_cases hpp : p0 = p
        · rw [if_pos hpp] at hnv
          cases hnv
          refine ⟨op, hmemop, by rw [hio]; rfl, rfl, ?_⟩
          rw [← hpp]
          exact hp
        · rw [if_neg hpp] at hnv
          obtain ⟨u, hu, huv, huh, hup⟩ := inv.nvSound p v hnv
          exact ⟨u, List.mem_append_left _ hu, huv, huh, hup⟩
      · intro op' hmem i hi p' hp'
        rw [hstNv, jsLookup_jsSet]
        by_cases hpp : p0 = p'
        · rw [if_pos hpp]
          simp
        · rw [if_neg hpp]
          rcases List.mem_append.mp hmem with hmem | hmem
          · exact inv.nvComplete op' hmem i hi p' hp'
          · rw [List.mem_singleton.mp hmem] at hp'
            rw [hp] at hp'
            cases hp'
            exact absurd rfl hpp
      · intro p v infoV hnv hlv op' hmem i hi hp'
        rw [hstNv, jsLookup_jsSet] at hnv
        rw [hstOp] at hlv
        by_cases hpp : p0 = p
        · rw [if_pos hpp] at hnv
          cases hnv
          rw [jsLookup_jsSet, if_pos rfl] at hlv
          cases hlv
          rcases List.mem_append.mp hmem with hmem | hmem
          · have := inv.nvComplete op' hmem i hi p hp'
            rw [← hpp] at this
            rw [hnv0] at this
            simp at this
          · rw [List.mem_singleton.mp hmem] at hi
            rw [hio] at hi
            cases hi
            exact earlier_irrefl _
        · rw [if_neg hpp] at hnv
          rcases List.mem_append.mp hmem with hmem | hmem
          · exact nvMin_after_opSet he ops s op info inv hio hnd p v infoV hnv hlv op' hmem i hi hp'
          · rw [List.mem_singleton.mp hmem] at hp'
            rw [hp] at hp'
            cases hp'
            exact absurd rfl hpp
    | some c =>
      have hcex : ∃ ci, jsLookup (jsSet s.opHashToInfo (getHash he op) info) c = some ci := by
        rw [jsLookup_jsSet]
        by_cases hch : getHash he op = c
        · rw [if_pos hch]
          exact ⟨info, rfl⟩
        · rw [if_neg hch]
          have hks := inv.nvKnown p0 c hnv0
          cases hlc : jsLookup s.opHashToInfo c with
          | none =>
            rw [hlc] at hks
            simp at hks
          | some ci => exact ⟨ci, rfl⟩
      obtain ⟨ci, hc2⟩ := hcex
      cases hearl2 : earlier ci.timestamp info.timestamp with
      | true =>
        have hstNv : (applyStep he s op).nextVersion = s.nextVersion := by
          simp [applyStep,
            apply_prev_keep he s op info p0 c ci hio hnd hp hnv0 hc2 hearl2]
        refine ⟨hopinv, ?_, ?_, ?_, ?_⟩
        · intro p v hnv
          rw [hstNv] at hnv
          rw [hstOp]
          exact isSome_jsLookup_jsSet _ _ _ _ (inv.nvKnown p v hnv)
        · intro p v hnv
          rw [hstNv] at hnv
          obtain ⟨u, hu, huv, huh, hup⟩ := inv.nvSound p v hnv
          exact ⟨u, List.mem_append_left _ hu, huv, huh, hup⟩
        · intro op' hmem i hi p' hp'
          rw [hstNv]
          rcases List.mem_append.mp hmem with hmem | hmem
          · exact inv.nvComplete op' hmem i hi p' hp'
          · rw [List.mem_singleton.mp hmem] at hp'
            rw [hp] at hp'
            cases hp'
            rw [hnv0]
            simp
        · intro p v infoV hnv hlv op' hmem i hi hp'
          rw [hstNv] at hnv
          rw [hstOp] at hlv
          rcases List.mem_append.mp hmem with hmem | hmem
          · exact nvMin_after_opSet he ops s op info inv hio hnd p v infoV hnv hlv op' hmem i hi hp'
          · rw [List.mem_singleton.mp hmem] at hp' hi
            rw [hio] at hi
            cases hi
            rw [hp] at hp'
            cases hp'
            rw [hnv0] at hnv
            cases hnv
            rw [hc2] at hlv
            cases hlv
            exact earlier_asymm _ _ hearl2
      | false =>
        have hstNv : (applyStep he s op).nextVersion =
            jsSet s.nextVersion p0 (getHash he op) := by
          simp [applyStep,
            apply_prev_set he s op info p0 c ci hio hnd hp hnv0 hc2 hearl2]
        refine ⟨hopinv, ?_, ?_, ?_, ?_⟩
        · intro p v hnv
          rw [hstNv, jsLookup_jsSet] at hnv
          rw [hstOp]
          by_cases hpp : p0 = p
          · rw [if_pos hpp] at hnv
            cases hnv
            rw [jsLookup_jsSet, if_pos rfl]
            simp
          · rw [if_neg hpp] at hnv
            exact isSome_jsLookup_jsSet _ _ _ _ (inv.nvKnown p v hnv)
        · intro p v hnv
          rw [hstNv, jsLookup_jsSet] at hnv
          by_cases hpp : p0 = p
          · rw [if_pos hpp] at hnv
            cases hnv
            refine ⟨op, hmemop, by rw [hio]; rfl, rfl, ?_⟩
            rw [← hpp]
            exact hp
          · rw [if_neg hpp] at hnv
            obtain ⟨u, hu, huv, huh, hup⟩ := inv.nvSound p v hnv
            exact ⟨u, List.mem_append_left _ hu, huv, huh, hup⟩
        · intro op' hmem i hi p' hp'
          rw [hstNv, jsLookup_jsSet]
          by_cases hpp : p0 = p'
          · rw [if_pos hpp]
            simp
          · rw [if_neg hpp]
            rcases List.mem_append.mp hmem with hmem | hmem
            · exact inv.nvComplete op' hmem i hi p' hp'
            · rw [List.mem_singleton.mp hmem] at hp'
              rw [hp] at hp'
              cases hp'
              exact absurd rfl hpp
        · intro p v infoV hnv hlv op' hmem i hi hp'
          rw [hstNv, jsLookup_jsSet] at hnv
          rw [hstOp] at hlv
          by_cases hpp : p0 = p
          · rw [if_pos hpp] at hnv
            cases hnv
            rw [jsLookup_jsSet, if_pos rfl] at hlv
            cases hlv
            rcases List.mem_append.mp hmem with hmem | hmem
            · by_cases hch : getHash he op = c
              · have hks := inv.nvKnown p0 c hnv0
                cases hlold : jsLookup s.opHashToInfo c with
                | none =>
                  rw [hlold] at hks
                  simp at hks
                | some prev0 =>
                  have h1 : earlier prev0.timestamp info.timestamp = false := by
                    apply hnd
                    rw [hch]
                    exact hlold
                  have h2 : earlier i.timestamp prev0.timestamp = false := by
                    apply inv.nvMin p0 c prev0 hnv0 hlold op' hmem i hi
                    rw [hpp]
                    exact hp'
                  exact earlier_false_trans _ _ _ h1 h2
              · rw [jsLookup_jsSet, if_neg hch] at hc2
                have h2 : earlier i.timestamp ci.timestamp = false := by
                  apply inv.nvMin p0 c ci hnv0 hc2 op' hmem i hi
                  rw [hpp]
                  exact hp'
                exact earlier_false_trans _ _ _ hearl2 h2
            · rw [List.mem_singleton.mp hmem] at hi
              rw [hio] at hi
              cases hi
              exact earlier_irrefl _
          · rw [if_neg hpp] at hnv
            rcases List.mem_append.mp hmem with hmem | hmem
            · exact nvMin_after_opSet he ops s op info inv hio hnd p v infoV hnv hlv op' hmem i hi hp'
            · rw [List.mem_singleton.mp hmem] at hp'
              rw [hp] at hp'
              cases hp'
              exact absurd rfl hpp

theorem hashConsistent_mono (he : HashEnv) (l l' : List WriteOperation)
    (hsub : ∀ x, x ∈ l' → x ∈ l) (hc : HashConsistent he l) : HashConsistent he l' :=
  fun a ha b hb h => hc a (hsub a ha) b (hsub b hb) h

theorem cacheInv_step (he : HashEnv) (ops : List WriteOperation) (s : DidCacheState)
    (op : WriteOperation) (hc : HashConsistent he (ops ++ [op]))
    (inv : CacheInv he ops s) : CacheInv he (ops ++ [op]) (applyStep he s op) := by
  cases hio : opInfoOf op with
  | none =>
    have hopinv := opInv_step he ops s op inv.toOpInv
    have hst := applyStep_of_none he s op hio
    rw [hst] at hopinv ⊢
    refine ⟨hopinv, inv.nvKnown, ?_, ?_, ?_⟩
    · intro p v hnv
      obtain ⟨u, hu, huv, huh, hup⟩ := inv.nvSound p v hnv
      exact ⟨u, List.mem_append_left _ hu, huv, huh, hup⟩
    · intro op' hmem i hi p hp
      rcases List.mem_append.mp hmem with hmem | hmem
      · exact inv.nvComplete op' hmem i hi p hp
      · rw [List.mem_singleton.mp hmem] at hi
        rw [hio] at hi
        cases hi
    · intro p v infoV hnv hlv op' hmem i hi hp
      rcases List.mem_append.mp hmem with hmem | hmem
      · exact inv.nvMin p v infoV hnv hlv op' hmem i hi hp
      · rw [List.mem_singleton.mp hmem] at hi
        rw [hio] at hi
        cases hi
  | some info =>
    by_cases hdup : ∃ prev, jsLookup s.opHashToInfo (getHash he op) = some prev ∧
        earlier prev.timestamp info.timestamp = true
    · obtain ⟨prev, hl, hearl⟩ := hdup
      exact cacheInv_step_rejected he ops s op info prev hc inv hio hl hearl
    · have hnd : ∀ prev, jsLookup s.opHashToInfo (getHash he op) = some prev →
          earlier prev.timestamp info.timestamp = false := by
        intro prev hl
        by_contra hne
        exact hdup ⟨prev, hl, by
          revert hne
          cases earlier prev.timestamp info.timestamp <;> simp⟩
      exact cacheInv_step_accepted he ops s op info inv hio hnd

theorem cacheInv_applyList (he : HashEnv) (rest : List WriteOperation) :
    ∀ (pre : List WriteOperation) (s : DidCacheState),
      HashConsistent he (pre ++ rest) → CacheInv he pre s →
      CacheInv he (pre ++ rest) (applyList he s rest) := by
  induction rest with
  | nil =>
    intro pre s _ inv
    simpa [applyList] using inv
  | cons op rest ih =>
    intro pre s hc inv
    have hassoc : (pre ++ [op]) ++ rest = pre ++ op :: rest := by simp
    have hc1 : HashConsistent he ((pre ++ [op]) ++ rest) := by
      rw [hassoc]
      exact hc
    have hcstep : HashConsistent he (pre ++ [op]) := by
      apply hashConsistent_mono he (pre ++ op :: rest)
      · intro x hx
        rcases List.mem_append.mp hx with hx | hx
        · exact List.mem_append_left _ hx
        · rw [List.mem_singleton.mp hx]
          exact List.mem_append_right _ (List.mem_cons_self _ _)
      · exact hc
    have h1 := cacheInv_step he pre s op hcstep inv
    have h2 := ih (pre ++ [op]) (applyStep he s op) hc1 h1
    rw [hassoc] at h2
    simpa [applyList] using h2

/-! ### The claims -/

/-- C1: duplicate resolution in apply is earliest-wins. After any sequence of
apply calls from the empty cache, every stored entry of opHashToInfo was
projected from one of the applied operations with that hash and no applied
operation with that hash has a strictly earlier timestamp (so the stored
timestamp attains the minimum in the linear order defined by earlier, which
compares (transactionNumber, operationIndex)); an apply whose hash is already
stored with a strictly earlier timestamp returns undefined and leaves the
state unchanged; every other valid apply stores the new OperationInfo under
the hash and returns the hash. -/
theorem c1_duplicate_resolution_earliest_wins (he : HashEnv) (ops : List WriteOperation) :
    (∀ h info, jsLookup (applyList he emptyCache ops).opHashToInfo h = some info →
      (∃ op, op ∈ ops ∧ opInfoOf op = some info ∧ getHash he op = h) ∧
      (∀ op, op ∈ ops → ∀ i, opInfoOf op = some i → getHash he op = h →
        earlier i.timestamp info.timestamp = false)) ∧
    (∀ s op info prev, opInfoOf op = some info →
      jsLookup s.opHashToInfo (getHash he op) = some prev →
      earlier prev.timestamp info.timestamp = true →
      apply he s op = ApplyResult.returned none s) ∧
    (∀ s op info,
      (∀ p v, jsLookup s.nextVersion p = some v →
        (jsLookup s.opHashToInfo v).isSome = true) →
      opInfoOf op = some info →
      (∀ prev, jsLookup s.opHashToInfo (getHash he op) = some prev →
        earlier prev.timestamp info.timestamp = false) →
      ∃ s2, apply he s op = ApplyResult.returned (some (getHash he op)) s2 ∧
        jsLookup s2.opHashToInfo (getHash he op) = some info) := by
  have inv : OpInv he ops (applyList he emptyCache ops) := by
    have h0 := opInv_applyList he ops [] emptyCache (opInv_empty he)
    simpa using h0
  refine ⟨?_, ?_, ?_⟩
  · intro h info hl
    exact ⟨inv.opSound h info hl, inv.opMin h info hl⟩
  · intro s op info prev hio hl hearl
    exact apply_dup he s op info prev hio hl hearl
  · intro s op info hnvk hio hnd
    cases hp : prevOf op with
    | none =>
      refine ⟨_, apply_noprev he s op info hio hnd hp, ?_⟩
      simp [jsLookup_jsSet]
    | some p =>
      cases hnv : jsLookup s.nextVersion p with
      | none =>
        refine ⟨_, apply_prev_new he s op info p hio hnd hp hnv, ?_⟩
        simp [jsLookup_jsSet]
      | some c =>
        have hcsome : (jsLookup (jsSet s.opHashToInfo (getHash he op) info) c).isSome = true :=
          isSome_jsLookup_jsSet _ _ _ _ (hnvk p c hnv)
        cases hc2 : jsLookup (jsSet s.opHashToInfo (getHash he op) info) c with
        | none =>
          rw [hc2] at hcsome
          simp at hcsome
        | some ci =>
          cases hearl2 : earlier ci.timestamp info.timestamp with
          | true =>
            refine ⟨_, apply_prev_keep he s op info p c ci hio hnd hp hnv hc2 hearl2, ?_⟩
            simp [jsLookup_jsSet]
          | false =>
            refine ⟨_, apply_prev_set he s op info p c ci hio hnd hp hnv hc2 hearl2, ?_⟩
            simp [jsLookup_jsSet]

/-- Witness for C1 at a concrete duplicate: the same operation bytes applied
at transaction 5 and again at transaction 7 leave the transaction-5 info
stored, which is minimal among both applies. -/
theorem c1_witness :
    (∃ op, op ∈ c1ops ∧ opInfoOf op = some c1info ∧ getHash cHashEnv op = "2") ∧
    (∀ op, op ∈ c1ops → ∀ i, opInfoOf op = some i → getHash cHashEnv op = "2" →
      earlier i.timestamp c1info.timestamp = false) :=
  (c1_duplicate_resolution_earliest_wins cHashEnv c1ops).1 "2" c1info (by decide)

/-- C2: fork resolution invariant. After any hash-consistent sequence of apply
calls from the empty cache, every nextVersion entry (p maps to v) has v stored
in opHashToInfo; the stored info was projected from an applied operation with
hash v whose previousOperationHash equals p; and no applied operation with
previousOperationHash p has a strictly earlier timestamp than the stored info
of v (first-writer-wins on forks). -/
theorem c2_fork_resolution_invariant (he : HashEnv) (ops : List WriteOperation)
    (hc : HashConsistent he ops) (p v : String)
    (hnv : jsLookup (applyList he emptyCache ops).nextVersion p = some v) :
    ∃ infoV, jsLookup (applyList he emptyCache ops).opHashToInfo v = some infoV ∧
      (∃ op, op ∈ ops ∧ opInfoOf op = some infoV ∧ getHash he op = v ∧
        op.previousOperationHash = some p) ∧
      (∀ op, op ∈ ops → ∀ i, opInfoOf op = some i →
        op.previousOperationHash = some p →
        earlier i.timestamp infoV.timestamp = false) := by
  have inv : CacheInv he ops (applyList he emptyCache ops) := by
    have h0 := cacheInv_applyList he ops [] emptyCache (by simpa using hc) (cacheInv_empty he)
    simpa using h0
  have hks := inv.nvKnown p v hnv
  cases hlv : jsLookup (applyList he emptyCache ops).opHashToInfo v with
  | none =>
    rw [hlv] at hks
    simp at hks
  | some infoV =>
    obtain ⟨opS, hS, hSv, hSh, hSp⟩ := inv.nvSound p v hnv
    obtain ⟨hSpo, hSpne⟩ := prevOf_some_elim opS p hSp
    obtain ⟨opW, hW, hWi, hWh⟩ := inv.toOpInv.opSound v infoV hlv
    have hWsame : opW.previousOperationHash = opS.previousOperationHash :=
      hc opW hW opS hS (by rw [hWh, hSh])
    refine ⟨infoV, rfl, ⟨opW, hW, hWi, hWh, by rw [hWsame, hSpo]⟩, ?_⟩
    intro op' hmem i hi hp'
    exact inv.nvMin p v infoV hnv hlv op' hmem i hi (prevOf_some_intro op' p hp' hSpne)

/-- Witness for C2 at a concrete fork: a create followed by two updates of it
at (10,0) and (10,1); the chosen next of the create is the (10,0) update and
its timestamp is minimal among the siblings. -/
theorem c2_witness :
    ∃ infoV, jsLookup (applyList cHashEnv emptyCache c2ops).opHashToInfo "2" = some infoV ∧
      (∃ op, op ∈ c2ops ∧ opInfoOf op = some infoV ∧ getHash cHashEnv op = "2" ∧
        op.previousOperationHash = some "1") ∧
      (∀ op, op ∈ c2ops → ∀ i, opInfoOf op = some i →
        op.previousOperationHash = some "1" →
        earlier i.timestamp infoV.timestamp = false) :=
  c2_fork_resolution_invariant cHashEnv c2ops
    (by
      intro a ha b hb hab
      fin_cases ha <;> fin_cases hb <;> revert hab <;> decide)
    "1" "2" (by decide)

/-- C3: refuted on the code (code bug in rollback). A create at transaction 1
and an update of it at transaction 12 are applied; rollback 11 must remove the
nextVersion entry pointing at the transaction-12 update, but because the
forEach callback in the source names the (value, key) parameters in the order
(version, nextVersion), the pass tests the predecessor operation (transaction
1, kept) instead of the pointed-to operation: the entry survives, pointing at
an operation that was pruned from opHashToInfo. -/
theorem c3_rollback_keeps_dangling_nextVersion_entry :
    (rollback c3pre 11).isSome = true ∧
    jsLookup c3post.nextVersion "1" = some "2" ∧
    jsLookup c3post.opHashToInfo "2" = none ∧
    jsLookup c3pre.opHashToInfo "2" =
      some { batchFileHash := "fileB", type := OperationType.Update,
             timestamp := { blockNumber := 2, transactionNumber := 12,
                            operationIndex := 0 } } := by
  decide

/-- C4: refuted on the code (same rollback bug). Operations applied in
non-decreasing (transactionNumber, operationIndex) order 3, 5, 10, 12; the two
updates with hashes "5" and "6" both name "4" as previous version and the
earlier one "5" wins, so before rollback nextVersion maps "4" to "5". During
rollback 10 the buggy pass deletes the entry keyed "4" (delete by value of the
entry keyed "3", whose KEY operation has transaction 10), so replaying the
pruned operations rebuilds nextVersion with "4" mapped to "6": the
pre-rollback state is not reconstructed. -/
theorem c4_rollback_replay_does_not_roundtrip :
    (rollback c4pre 10).isSome = true ∧
    jsLookup c4post.opHashToInfo "3" = none ∧
    jsLookup c4post.opHashToInfo "6" = none ∧
    (jsLookup c4post.opHashToInfo "4").isSome = true ∧
    (jsLookup c4post.opHashToInfo "5").isSome = true ∧
    jsLookup c4pre.nextVersion "4" = some "5" ∧
    jsLookup c4replayed.nextVersion "4" = some "6" ∧
    c4replayed ≠ c4pre := by
  decide

/-- C5: batch cap and FIFO drain. When the ledger read yields block n and the
protocol table has parameters P for block n+1, getBatch returns the first
min(queue length, P.maxOperationsPerBatch) operations from the head of the
queue in order and leaves the rest queued. -/
theorem c5_batch_cap_and_fifo_drain (env : RooterEnv) (s : RooterState) (n : Nat)
    (P : ProtocolParameters)
    (h1 : env.getLastBlockResult = Except.ok n)
    (h2 : getProtocol env.table (n + 1) = some P) :
    getBatch env s = Except.ok
      (s.operations.take (min s.operations.length P.maxOperationsPerBatch),
       { s with operations :=
          s.operations.drop (min s.operations.length P.maxOperationsPerBatch) }) ∧
    (s.operations.take (min s.operations.length P.maxOperationsPerBatch)).length =
      min s.operations.length P.maxOperationsPerBatch ∧
    s.operations.take (min s.operations.length P.maxOperationsPerBatch) ++
      s.operations.drop (min s.operations.length P.maxOperationsPerBatch) =
      s.operations := by
  have hmin : (if s.operations.length > P.maxOperationsPerBatch
      then P.maxOperationsPerBatch else s.operations.length) =
      min s.operations.length P.maxOperationsPerBatch := by
    by_cases h : s.operations.length > P.maxOperationsPerBatch
    · rw [if_pos h]
      omega
    · rw [if_neg h]
      omega
  refine ⟨?_, ?_, ?_⟩
  · simp only [getBatch, h1, h2, hmin]
  · rw [List.length_take]
    omega
  · exact List.take_append_drop _ _

/-- Witness for C5: a queue of three buffers under a cap of two drains exactly
the first two in order and leaves the third. -/
theorem c5_witness :
    getBatch c5env c5queue = Except.ok ([[1], [2]],
      { operations := [[3]], processing := false }) ∧ ([[1], [2]] : List (List Nat)).length = 2 := by
  have h := c5_batch_cap_and_fifo_drain c5env c5queue 0 c5params rfl rfl
  exact ⟨h.1, rfl⟩

/-- C6: tick failure policy. For every environment outcome (any CAS write or
ledger call may fail), a tick started with the processing flag clear ends with
the processing flag clear, and whenever the drain succeeded (ledger read ok
and protocol parameters found) the queue ends exactly min(queue length, cap)
shorter: the drained operations are not re-enqueued on failure, and the
function returns normally (errors are swallowed by the catch block). -/
theorem c6_tick_failure_policy (env : RooterEnv) (s : RooterState)
    (hp : s.processing = false) :
    (rootOperations env s).processing = false ∧
    (∀ n P, env.getLastBlockResult = Except.ok n →
      getProtocol env.table (n + 1) = some P →
      (rootOperations env s).operations =
        s.operations.drop (min s.operations.length P.maxOperationsPerBatch)) := by
  constructor
  · rw [rootOperations, hp]
    simp
  · intro n P h1 h2
    have hmin : (if s.operations.length > P.maxOperationsPerBatch
        then P.maxOperationsPerBatch else s.operations.length) =
        min s.operations.length P.maxOperationsPerBatch := by
      by_cases h : s.operations.length > P.maxOperationsPerBatch
      · rw [if_pos h]
        omega
      · rw [if_neg h]
        omega
    rw [rootOperations, hp]
    simp only [Bool.false_eq_true, if_false, getBatch, h1, h2, hmin]
    by_cases hempty : (s.operations.take (min s.operations.length P.maxOperationsPerBatch)).length = 0
    · simp [hempty]
    · rw [if_neg hempty]
      split
      · rfl
      · split
        · rfl
        · split
          · rfl
          · rfl

/-- Witness for C6: with both CAS writes succeeding and the ledger write
failing, the tick still clears the processing flag and the two drained
operations stay removed from the queue. -/
theorem c6_witness :
    (rootOperations c6env c5queue).processing = false ∧
    (rootOperations c6env c5queue).operations = [[3]] := by
  have h := c6_tick_failure_policy c6env c5queue rfl
  refine ⟨h.1, ?_⟩
  rw [h.2 0 c5params rfl rfl]
  rfl

theorem thrownInvalidOperation_applyUpdateMaps (s1 : DidCacheState)
    (operation : WriteOperation) (opHash : String) (opInfo : OperationInfo) :
    thrownInvalidOperation (applyUpdateMaps s1 operation opHash opInfo) = false := by
  rw [applyUpdateMaps]
  split
  · rfl
  · split
    · rfl
    · rfl

theorem thrownInvalidOperation_applyValidated (s : DidCacheState)
    (operation : WriteOperation) (opHash : String) (opInfo : OperationInfo) :
    thrownInvalidOperation (applyValidated s operation opHash opInfo) = false := by
  rw [applyValidated]
  split
  · split
    · rfl
    · exact thrownInvalidOperation_applyUpdateMaps _ _ _ _
  · exact thrownInvalidOperation_applyUpdateMaps _ _ _ _

/-- C7: apply throws its invalid-operation error exactly when one of
blockNumber, transactionNumber, operationIndex, batchFileHash is missing, and
in that case the cache state at the throw point is the unchanged input state
(both projection maps untouched). -/
theorem c7_apply_invalid_operation_contract (he : HashEnv) (s : DidCacheState)
    (op : WriteOperation) :
    (thrownInvalidOperation (apply he s op) = true ↔
      (op.blockNumber = none ∨ op.transactionNumber = none ∨
        op.operationIndex = none ∨ op.batchFileHash = none)) ∧
    (thrownInvalidOperation (apply he s op) = true → resultState (apply he s op) = s) := by
  cases hb : op.blockNumber with
  | none =>
    refine ⟨by simp [apply, hb, thrownInvalidOperation], ?_⟩
    intro hthrew
    simp [apply, hb, resultState]
  | some b =>
    cases ht : op.transactionNumber with
    | none =>
      refine ⟨by simp [apply, hb, ht, thrownInvalidOperation], ?_⟩
      intro hthrew
      simp [apply, hb, ht, resultState]
    | some t =>
      cases hi : op.operationIndex with
      | none =>
        refine ⟨by simp [apply, hb, ht, hi, thrownInvalidOperation], ?_⟩
        intro hthrew
        simp [apply, hb, ht, hi, resultState]
      | some i =>
        cases hf : op.batchFileHash with
        | none =>
          refine ⟨by simp [apply, hb, ht, hi, hf, thrownInvalidOperation], ?_⟩
          intro hthrew
          simp [apply, hb, ht, hi, hf, resultState]
        | some f =>
          refine ⟨by simp [apply, hb, ht, hi, hf, thrownInvalidOperation_applyValidated], ?_⟩
          intro hthrew
          rw [apply] at hthrew
          simp only [hb, ht, hi, hf] at hthrew
          rw [thrownInvalidOperation_applyValidated] at hthrew
          cases hthrew

/-- Witness for C7: an operation missing blockNumber throws the
invalid-operation error and the empty cache is unchanged at the throw. -/
theorem c7_witness :
    thrownInvalidOperation (apply cHashEnv emptyCache c7badOp) = true ∧
    resultState (apply cHashEnv emptyCache c7badOp) = emptyCache := by
  have h := c7_apply_invalid_operation_contract cHashEnv emptyCache c7badOp
  have h1 : thrownInvalidOperation (apply cHashEnv emptyCache c7badOp) = true :=
    h.1.mpr (Or.inl rfl)
  exact ⟨h1, h.2 h1⟩

/-- C8: refuted on the code (code bug flagged by the source TODO). getHash
hard-codes multihash algorithm code 18 and never consults the Protocol Table:
the hash of an operation is invariant under changes of its blockNumber, even
under a table that selects algorithm code 19 from block 500000 on, so for an
operation at block 1000000 the code used (18) differs from the code the
Protocol Table selects (19). The Create/other content selection of the claim
does hold in getHash. -/
theorem c8_hash_ignores_protocol_table :
    getProtocol c8table 1000000 =
      some { maxOperationsPerBatch := 100, hashAlgorithmCode := 19 } ∧
    getProtocol c8table 0 =
      some { maxOperationsPerBatch := 100, hashAlgorithmCode := 18 } ∧
    (∀ (he : HashEnv) (op : WriteOperation) (b1 b2 : Option Nat),
      getHash he { op with blockNumber := b1 } =
        getHash he { op with blockNumber := b2 }) := by
  refine ⟨by decide, by decide, ?_⟩
  intro he op b1 b2
  rfl

theorem firstAux_spec (s : DidCacheState) (getOp : OperationInfo → WriteOperation) :
    ∀ (fuel : Nat) (v r : String), firstAux s getOp fuel v = some r →
      previous s getOp r = none ∧ Relation.ReflTransGen (prevStep s getOp) v r := by
  intro fuel
  induction fuel with
  | zero =>
    intro v r h
    simp [firstAux] at h
  | succ n ih =>
    intro v r h
    rw [firstAux] at h
    cases hp : previous s getOp v with
    | none =>
      rw [hp] at h
      cases h
      exact ⟨hp, Relation.ReflTransGen.refl⟩
    | some p =>
      rw [hp] at h
      obtain ⟨h1, h2⟩ := ih p r h
      exact ⟨h1, Relation.ReflTransGen.head hp h2⟩

/-- C9 counterexample: in a state that knows only the hash "2", whose
reconstructed operation names the never-applied previous version "1", first of
"2" returns "1", which is not a key of opHashToInfo — refuting the clause of
the claim that the returned VersionId is known. -/
theorem c9_counterexample :
    first c9state c9getOp 5 "2" = some "1" ∧
    jsLookup c9state.opHashToInfo "1" = none := by
  decide

/-- C9 (amended): first returns undefined immediately when the starting
version id is unknown (equivalently, a returned id implies the start was
known); a returned id is the end of the previous-walk from the start (a chain
of previous steps) and itself has no previous; but it need not be a key of
opHashToInfo — when the predecessor chain dangles at an unknown id, that
unknown id is returned rather than undefined. -/
theorem c9_first_contract_amended (s : DidCacheState)
    (getOp : OperationInfo → WriteOperation) (fuel : Nat) (v r : String)
    (h : first s getOp fuel v = some r) :
    (jsLookup s.opHashToInfo v).isSome = true ∧
    previous s getOp r = none ∧
    Relation.ReflTransGen (prevStep s getOp) v r := by
  rw [first] at h
  cases hl : jsLookup s.opHashToInfo v with
  | none =>
    rw [hl] at h
    cases h
  | some info =>
    rw [hl] at h
    obtain ⟨h1, h2⟩ := firstAux_spec s getOp fuel v r h
    exact ⟨rfl, h1, h2⟩

/-- Witness for C9 at the fixture: first of "2" returns "1"; the start "2" was
known, "1" has no previous, and "1" is reached from "2" by previous steps. -/
theorem c9_witness :
    (jsLookup c9state.opHashToInfo "2").isSome = true ∧
    previous c9state c9getOp "1" = none ∧
    Relation.ReflTransGen (prevStep c9state c9getOp) "2" "1" :=
  c9_first_contract_amended c9state c9getOp 5 "2" "1" (by decide)

theorem reapply_noprev (he : HashEnv) (A : DidCacheState) (op : WriteOperation)
    (info : OperationInfo)
    (hio : opInfoOf op = some info) (hp : prevOf op = none)
    (hlook : jsLookup A.opHashToInfo (getHash he op) = some info) :
    apply he A op = ApplyResult.returned (some (getHash he op)) A := by
  have hnd : ∀ prev, jsLookup A.opHashToInfo (getHash he op) = some prev →
      earlier prev.timestamp info.timestamp = false := by
    intro prev hpl
    rw [hlook] at hpl
    cases hpl
    exact earlier_irrefl _
  rw [apply_noprev he A op info hio hnd hp]
  rw [jsSet_eq_of_lookup _ _ _ hlook]

theorem reapply_keep (he : HashEnv) (A : DidCacheState) (op : WriteOperation)
    (info : OperationInfo) (p c : String) (ci : OperationInfo)
    (hio : opInfoOf op = some info) (hp : prevOf op = some p)
    (hlook : jsLookup A.opHashToInfo (getHash he op) = some info)
    (hnvA : jsLookup A.nextVersion p = some c)
    (hci : jsLookup A.opHashToInfo c = some ci)
    (hearl2 : earlier ci.timestamp info.timestamp = true) :
    apply he A op = ApplyResult.returned (some (getHash he op)) A := by
  have hnd : ∀ prev, jsLookup A.opHashToInfo (getHash he op) = some prev →
      earlier prev.timestamp info.timestamp = false := by
    intro prev hpl
    rw [hlook] at hpl
    cases hpl
    exact earlier_irrefl _
  have hcA : jsLookup (jsSet A.opHashToInfo (getHash he op) info) c = some ci := by
    rw [jsSet_eq_of_lookup _ _ _ hlook]
    exact hci
  rw [apply_prev_keep he A op info p c ci hio hnd hp hnvA hcA hearl2]
  rw [jsSet_eq_of_lookup _ _ _ hlook]

theorem reapply_chain_self (he : HashEnv) (A : DidCacheState) (op : WriteOperation)
    (info : OperationInfo) (p : String)
    (hio : opInfoOf op = some info) (hp : prevOf op = some p)
    (hlook : jsLookup A.opHashToInfo (getHash he op) = some info)
    (hnvA : jsLookup A.nextVersion p = some (getHash he op)) :
    apply he A op = ApplyResult.returned (some (getHash he op)) A := by
  have hnd : ∀ prev, jsLookup A.opHashToInfo (getHash he op) = some prev →
      earlier prev.timestamp info.timestamp = false := by
    intro prev hpl
    rw [hlook] at hpl
    cases hpl
    exact earlier_irrefl _
  have hcA : jsLookup (jsSet A.opHashToInfo (getHash he op) info) (getHash he op) =
      some info := by
    rw [jsSet_eq_of_lookup _ _ _ hlook]
    exact hlook
  rw [apply_prev_set he A op info p (getHash he op) info hio hnd hp hnvA hcA
    (earlier_irrefl info.timestamp)]
  rw [jsSet_eq_of_lookup _ _ _ hlook, jsSet_eq_of_lookup _ _ _ hnvA]

/-- C10 (amended): re-applying an operation immediately after a successful
apply of it is idempotent: if apply returned the hash h with new state s1,
then applying the same operation to s1 again returns h and leaves s1 exactly
unchanged. Equality of the stored timestamp alone does not suffice for the
original claim: the stored OperationInfo is overwritten with the new
projection and the nextVersion choice can move, so the unchanged-state
guarantee holds for the state the apply itself produced. -/
theorem c10_reapply_after_apply_idempotent (he : HashEnv) (s : DidCacheState)
    (op : WriteOperation) (h : String) (s1 : DidCacheState)
    (happ : apply he s op = ApplyResult.returned (some h) s1) :
    apply he s1 op = ApplyResult.returned (some h) s1 := by
  cases hio : opInfoOf op with
  | none =>
    obtain ⟨msg, hm⟩ := apply_of_opInfoOf_none he s op hio
    rw [hm] at happ
    cases happ
  | some info =>
    rw [apply_of_opInfoOf_some he s op info hio] at happ
    have hnd : ∀ prev, jsLookup s.opHashToInfo (getHash he op) = some prev →
        earlier prev.timestamp info.timestamp = false := by
      intro prev hl
      cases hearl : earlier prev.timestamp info.timestamp with
      | false => rfl
      | true =>
        exfalso
        simp only [applyValidated, hl, hearl, if_true] at happ
        simp at happ
    rw [applyValidated_of_not_dup s op (getHash he op) info hnd] at happ
    cases hp : prevOf op with
    | none =>
      simp only [applyUpdateMaps, hp] at happ
      simp only [ApplyResult.returned.injEq, Option.some.injEq] at happ
      obtain ⟨hh, hs⟩ := happ
      subst hh
      subst hs
      apply reapply_noprev he _ op info hio hp
      simp [jsLookup_jsSet]
    | some p =>
      simp only [applyUpdateMaps, hp] at happ
      cases hch : applyVersionChainUpdates
          { s with opHashToInfo := jsSet s.opHashToInfo (getHash he op) info }
          (getHash he op) info p with
      | none =>
        rw [hch] at happ
        simp at happ
      | some s2 =>
        rw [hch] at happ
        simp only [ApplyResult.returned.injEq, Option.some.injEq] at happ
        obtain ⟨hh, hs⟩ := happ
        subst hh
        subst hs
        simp only [applyVersionChainUpdates] at hch
        cases hnv : jsLookup s.nextVersion p with
        | none =>
          simp only [hnv, Option.some.injEq] at hch
          subst hch
          apply reapply_chain_self he _ op info p hio hp
          · simp [jsLookup_jsSet]
          · simp [jsLookup_jsSet]
        | some c =>
          simp only [hnv] at hch
          cases hlc : jsLookup (jsSet s.opHashToInfo (getHash he op) info) c with
          | none =>
            simp only [hlc] at hch
            cases hch
          | some ci =>
            simp only [hlc] at hch
            cases hearl2 : earlier ci.timestamp info.timestamp with
            | true =>
              simp only [hearl2, if_true, Option.some.injEq] at hch
              subst hch
              apply reapply_keep he _ op info p c ci hio hp ?_ ?_ ?_ hearl2
              · simp [jsLookup_jsSet]
              · exact hnv
              · exact hlc
            | false =>
              simp only [hearl2, Bool.false_eq_true, if_false, Option.some.injEq] at hch
              subst hch
              apply reapply_chain_self he _ op info p hio hp
              · simp [jsLookup_jsSet]
              · simp [jsLookup_jsSet]

/-- C10 counterexample: the hash of c10op is stored in c10s0 with a timestamp
equal to the timestamp of c10op but a different batchFileHash; apply returns
the hash, yet opHashToInfo changes at that hash (the stored info is
overwritten), refuting the claim that the maps are left extensionally
unchanged whenever only the timestamps agree. -/
theorem c10_counterexample :
    jsLookup c10s0.opHashToInfo (getHash cHashEnv c10op) = some c10stored ∧
    (opInfoOf c10op).map (fun i => i.timestamp) = some c10stored.timestamp ∧
    apply cHashEnv c10s0 c10op =
      ApplyResult.returned (some (getHash cHashEnv c10op)) c10s1 ∧
    jsLookup c10s1.opHashToInfo (getHash cHashEnv c10op) ≠
      jsLookup c10s0.opHashToInfo (getHash cHashEnv c10op) := by
  decide

/-- Witness for C10 (amended) at the fixture: after the apply of c10op to
c10s0 produced c10s1, applying c10op to c10s1 returns the same hash and the
same state. -/
theorem c10_witness :
    apply cHashEnv c10s1 c10op =
      ApplyResult.returned (some (getHash cHashEnv c10op)) c10s1 :=
  c10_reapply_after_apply_idempotent cHashEnv c10s0 c10op
    (getHash cHashEnv c10op) c10s1 (by decide)
